import Mathlib

/-!
Verification development for the GeoGenius interactive heatmap engine
(`src/components/Heatmap.tsx` and `src/App.tsx`).

The numeric semantics of the TypeScript source is modelled with exact
rationals (`ℚ`); transcendental quantities (`Math.exp`, `Math.sqrt`) are
modelled with the corresponding real functions over casts of those
rationals.  Where IEEE-754 special values (NaN / Infinity) matter, a small
explicit JavaScript-number model `JsNum` is used instead.
-/

namespace GeoGenius

/-- Mirrors the `TargetArea` interface of `src/types` (unnamed part_000):
integer id, data-space coordinates `x, y ∈ [0,100]`, probability, mutable
description and optional reasoning text. -/
structure TargetArea where
  id : Int
  x : ℚ
  y : ℚ
  probability : ℚ
  description : String
  reasoning : Option String
deriving DecidableEq, Repr

/-- Mirrors the `viewBox` state record of `Heatmap.tsx` (`{x, y, w, h}`). -/
structure ViewBox where
  x : ℚ
  y : ℚ
  w : ℚ
  h : ℚ
deriving DecidableEq, Repr

/-- Mirrors the `Cluster` interface of `Heatmap.tsx`. -/
structure Cluster where
  id : String
  x : ℚ
  y : ℚ
  points : List TargetArea
  isCluster : Bool
deriving DecidableEq, Repr

/-- The distance test of the inner clustering loop (`Heatmap.tsx` line 229-230):
`Math.sqrt((nx-px)² + (ny-py)²) ≤ threshold`.  Encoded without `sqrt` via the
equivalence `√d ≤ t ↔ 0 ≤ t ∧ d ≤ t²` (see `withinThreshold_iff_sqrt`), which
keeps the predicate decidable over `ℚ`. -/
def withinThreshold (p n : TargetArea) (t : ℚ) : Bool :=
  decide (0 ≤ t ∧ (n.x - p.x) ^ 2 + (n.y - p.y) ^ 2 ≤ t ^ 2)

/-- The inner loop of the clustering algorithm (`Heatmap.tsx` lines 225-234):
scan the points after the seed `p`, skipping already-used ids, adding every
point within `t` of `p` and marking its id used.  Returns the gathered
neighbours and the final used-id list. -/
def gatherCluster (p : TargetArea) (t : ℚ) :
    List TargetArea → List Int → List TargetArea × List Int
  | [], used => ([], used)
  | n :: rest, used =>
    if n.id ∈ used then gatherCluster p t rest used
    else if withinThreshold p n t then
      let r := gatherCluster p t rest (n.id :: used)
      (n :: r.1, r.2)
    else gatherCluster p t rest used

/-- One clustering average (`Heatmap.tsx` lines 236-237):
`clusterPoints.reduce((sum, c) => sum + c.x, 0) / clusterPoints.length`. -/
def clusterAvg (f : TargetArea → ℚ) (pts : List TargetArea) : ℚ :=
  pts.foldl (fun s c => s + f c) 0 / (pts.length : ℚ)

/-- The outer loop of the clustering algorithm (`Heatmap.tsx` lines 218-246):
walk the sorted points, skip used ids, seed a cluster at each unused point,
gather its neighbours and emit the cluster record. -/
def buildClusters (t : ℚ) : List TargetArea → List Int → List Cluster
  | [], _ => []
  | p :: rest, used =>
    if p.id ∈ used then buildClusters t rest used
    else
      let g := gatherCluster p t rest (p.id :: used)
      let pts := p :: g.1
      { id := (if pts.length > 1 then "cluster-" else "point-") ++ toString p.id,
        x := clusterAvg (·.x) pts,
        y := clusterAvg (·.y) pts,
        points := pts,
        isCluster := pts.length > 1 } :: buildClusters t rest g.2

/-- The stable sort-by-x step (`Heatmap.tsx` line 215):
`[...targetAreas].sort((a, b) => a.x - b.x)`; ECMAScript `Array.prototype.sort`
is stable, which insertion sort reproduces. -/
def sortByX (l : List TargetArea) : List TargetArea :=
  List.insertionSort (fun a b => a.x ≤ b.x) l

/-- The `clusters` memo of `Heatmap.tsx` (lines 211-248): threshold
`viewBox.w * 0.08`, stable sort by x, then the greedy scan. -/
def clusters (targetAreas : List TargetArea) (vbw : ℚ) : List Cluster :=
  buildClusters (vbw * (8 / 100)) (sortByX targetAreas) []

/-- Observable measure used by the spec: the number of input points that end
up in multi-member clusters. -/
def mergedPointCount (P : List TargetArea) (vbw : ℚ) : Nat :=
  (((clusters P vbw).filter (fun c => 1 < c.points.length)).map
    (fun c => c.points.length)).sum

/-- The base view box of `Heatmap.tsx` (lines 27-37): smallest rectangle with
the container's aspect ratio containing the 0-100 square, centred on (50,50).
`aspect = width / height`; exact-rational model (for the IEEE special-value
behaviour on zero dimensions see `getBaseViewBoxJs`). -/
def getBaseViewBox (width height : ℚ) : ViewBox :=
  let aspect := width / height
  { x := 50 - (if aspect > 1 then 100 * aspect else 100) / 2,
    y := 50 - (if aspect > 1 then 100 else 100 / aspect) / 2,
    w := if aspect > 1 then 100 * aspect else 100,
    h := if aspect > 1 then 100 else 100 / aspect }

/-- The body of `handleMouseMove` (`Heatmap.tsx` lines 153-176): an
incremental drag move of `(dx, dy)` pixels translates the view-box origin by
the pixel delta times `extent / containerExtent`, leaving the extents
untouched and applying no bounds check. -/
def panBy (vb : ViewBox) (dx dy width height : ℚ) : ViewBox :=
  let scaleX := vb.w / width
  let scaleY := vb.h / height
  { x := vb.x - dx * scaleX, y := vb.y - dy * scaleY, w := vb.w, h := vb.h }

/-- The pixel-to-data projection of `Heatmap.tsx` (lines 111-112):
`svgX = viewBox.x + (mx / width) * viewBox.w` and likewise for y. -/
def pixelToData (vb : ViewBox) (width height mx my : ℚ) : ℚ × ℚ :=
  (vb.x + (mx / width) * vb.w, vb.y + (my / height) * vb.h)

/-- The step-zoom handler `handleZoom` of `Heatmap.tsx` (lines 188-206),
wired to the zoom in/out buttons. -/
def handleZoom (width height : ℚ) (prev : ViewBox) (factor : ℚ) : ViewBox :=
  let base := getBaseViewBox width height
  let newW := prev.w * factor
  let newH := prev.h * factor
  if newW > base.w then base
  else if newW < 2 then prev
  else { x := prev.x + (prev.w - newW) / 2, y := prev.y + (prev.h - newH) / 2,
         w := newW, h := newH }

/-- The bounding-box scan of `handleClusterClick` (`Heatmap.tsx` lines
257-263): a fold starting from `minX = 100, maxX = 0, minY = 100, maxY = 0`,
returned as `(minX, maxX, minY, maxY)`. -/
def clusterBounds (pts : List TargetArea) : ℚ × ℚ × ℚ × ℚ :=
  pts.foldl (fun acc p =>
    (if p.x < acc.1 then p.x else acc.1,
     if p.x > acc.2.1 then p.x else acc.2.1,
     if p.y < acc.2.2.1 then p.y else acc.2.2.1,
     if p.y > acc.2.2.2 then p.y else acc.2.2.2)) (100, 0, 100, 0)

/-- The drill-down view box computed by the multi-member branch of
`handleClusterClick` (`Heatmap.tsx` lines 256-278).  JavaScript's
`Math.max(clusterW, clusterH) * 0.5 || 10` falls back to 10 exactly when the
product is zero (the only falsy rational). -/
def zoomToCluster (aspect : ℚ) (pts : List TargetArea) : ViewBox :=
  let b := clusterBounds pts
  let clusterW := b.2.1 - b.1
  let clusterH := b.2.2.2 - b.2.2.1
  let pad := if max clusterW clusterH * (1 / 2) = 0 then 10
             else max clusterW clusterH * (1 / 2)
  let targetW := max (clusterW + pad) 10
  let targetH := max (clusterH + pad) 10
  let dim := max targetW targetH
  { x := (b.1 + b.2.1) / 2 - dim / 2,
    y := (b.2.2.1 + b.2.2.2) / 2 - dim / 2,
    w := if aspect > 1 then targetH * aspect else targetW,
    h := if aspect > 1 then targetH else targetW / aspect }

/-- The `dim = Math.max(targetW, targetH)` quantity of `handleClusterClick`
(`Heatmap.tsx` line 270): the larger padded span, floored at 10, used for
positioning the drill-down rectangle. -/
def zoomDim (pts : List TargetArea) : ℚ :=
  let b := clusterBounds pts
  let clusterW := b.2.1 - b.1
  let clusterH := b.2.2.2 - b.2.2.1
  let pad := if max clusterW clusterH * (1 / 2) = 0 then 10
             else max clusterW clusterH * (1 / 2)
  max (max (clusterW + pad) 10) (max (clusterH + pad) 10)

/-- The cumulative Manhattan displacement accumulator of the drag gesture
(`Heatmap.tsx` line 159): `dragDistanceRef.current += |dx| + |dy|` over the
incremental moves of one press-move-release gesture. -/
def dragDistance (moves : List (ℚ × ℚ)) : ℚ :=
  moves.foldl (fun acc m => acc + |m.1| + |m.2|) 0

/-- Outcome of resolving a completed press-move-release gesture. -/
inductive GestureOutcome where
  | cleared
  | selected (id : Int)
  | drilled (vb : ViewBox)
  | noAction
deriving DecidableEq

/-- Click resolution for a completed gesture.  A click landing on a cluster
glyph runs `handleClusterClick` (`Heatmap.tsx` lines 250-280), whose
`e.stopPropagation()` prevents the container-level `handleContainerClick`
(lines 182-186) from also running; a click on empty space runs only the
container handler.  The `[]` arm of the cluster match is unreachable for
engine-produced clusters (see `clusters_partition`). -/
def resolveClick (aspect : ℚ) (target : Option Cluster) (d : ℚ) : GestureOutcome :=
  match target with
  | none => if d < 5 then .cleared else .noAction
  | some c =>
    if d > 5 then .noAction
    else if c.isCluster then .drilled (zoomToCluster aspect c.points)
    else
      match c.points with
      | p :: _ => .selected p.id
      | [] => .noAction

/-- Mirrors the `Zone` interface of `src/types`. -/
structure Zone where
  type : String
  area : String
  color : String
deriving DecidableEq

/-- Mirrors the `PredictionResult` interface of `src/types`. -/
structure PredictionResult where
  porphyryPotential : String
  epithermalPotential : String
  confidenceScore : ℚ
  alterationMinerals : List String
  zones : List Zone
  targetAreas : List TargetArea
  recommendedActions : List String
  reasoning : String
deriving DecidableEq

/-- The `handleUpdateTargetDescription` callback of `src/App.tsx` (lines
70-77), in the case where an analysis result is present: map over the target
list, replacing the description of the target whose id matches. -/
def handleUpdateTargetDescription (r : PredictionResult) (id : Int)
    (newDescription : String) : PredictionResult :=
  { r with targetAreas := r.targetAreas.map (fun target =>
      if target.id = id then { target with description := newDescription }
      else target) }

/-- Gaussian influence of one target on a density cell (`Heatmap.tsx` lines
296-299): `probability * exp(-(dist * dist) / 100)` with `dist` the Euclidean
distance from the cell centre, in real-number semantics. -/
noncomputable def influence (t : TargetArea) (cx cy : ℚ) : ℝ :=
  let dist := Real.sqrt (((cx : ℝ) - (t.x : ℝ)) ^ 2 + ((cy : ℝ) - (t.y : ℝ)) ^ 2)
  (t.probability : ℝ) * Real.exp (-(dist * dist) / 100)

/-- Accumulated, clamped intensity of one density cell (`Heatmap.tsx` lines
294-303): the `forEach` accumulation followed by `Math.min(intensity, 1)`. -/
noncomputable def cellIntensity (P : List TargetArea) (cx cy : ℚ) : ℝ :=
  min (P.foldl (fun acc t => acc + influence t cx cy) 0) 1

/-- One cell of the heatmap surface grid. -/
structure Cell where
  x : ℚ
  y : ℚ
  w : ℚ
  h : ℚ
  intensity : ℝ

/-- The `cells` memo of `Heatmap.tsx` (lines 283-315): a 30×30 grid spanning
the current view box, row-major in `i` (x index) then `j` (y index), each
cell carrying its rectangle and clamped intensity at the cell centre. -/
noncomputable def cells (vb : ViewBox) (P : List TargetArea) : List Cell :=
  (List.range 30).flatMap (fun (i : ℕ) => (List.range 30).map (fun (j : ℕ) =>
    let cellW := vb.w / 30
    let cellH := vb.h / 30
    { x := vb.x + (i : ℚ) * cellW,
      y := vb.y + (j : ℚ) * cellH,
      w := cellW,
      h := cellH,
      intensity := cellIntensity P (vb.x + (i : ℚ) * cellW + cellW / 2)
        (vb.y + (j : ℚ) * cellH + cellH / 2) }))

/-- Model of a JavaScript IEEE-754 number restricted to the values reachable
here: a finite (exactly representable) value, a signed infinity (`inf true`
is `+∞`), or NaN. -/
inductive JsNum where
  | fin : ℚ → JsNum
  | inf : Bool → JsNum
  | nan : JsNum
deriving DecidableEq

/-- Whether a JavaScript number is finite. -/
def JsNum.isFinite : JsNum → Bool
  | .fin _ => true
  | _ => false

/-- JavaScript division, including the unguarded division-by-zero behaviour
(`a / 0` is `±Infinity` for `a ≠ 0`, `0 / 0` is `NaN`, `a / ±∞` is `0`). -/
def jdiv : JsNum → JsNum → JsNum
  | .fin a, .fin b =>
    if b = 0 then (if a = 0 then .nan else .inf (decide (0 < a))) else .fin (a / b)
  | .fin _, .inf _ => .fin 0
  | .inf s, .fin b => if b = 0 then .inf s else .inf (s == decide (0 < b))
  | .inf _, .inf _ => .nan
  | .nan, _ => .nan
  | _, .nan => .nan

/-- JavaScript multiplication on the modelled values. -/
def jmul : JsNum → JsNum → JsNum
  | .fin a, .fin b => .fin (a * b)
  | .fin a, .inf s => if a = 0 then .nan else .inf (decide (0 < a) == s)
  | .inf s, .fin b => if b = 0 then .nan else .inf (s == decide (0 < b))
  | .inf s, .inf u => .inf (s == u)
  | .nan, _ => .nan
  | _, .nan => .nan

/-- JavaScript subtraction on the modelled values. -/
def jsub : JsNum → JsNum → JsNum
  | .fin a, .fin b => .fin (a - b)
  | .fin _, .inf s => .inf (!s)
  | .inf s, .fin _ => .inf s
  | .inf s, .inf u => if s == u then .nan else .inf s
  | .nan, _ => .nan
  | _, .nan => .nan

/-- JavaScript strict greater-than on the modelled values (`NaN` compares
false with everything). -/
def jgt : JsNum → JsNum → Bool
  | .fin a, .fin b => decide (b < a)
  | .fin _, .inf s => !s
  | .inf s, .fin _ => s
  | .inf s, .inf u => s && !u
  | .nan, _ => false
  | _, .nan => false

/-- A view box over JavaScript numbers. -/
structure JsViewBox where
  x : JsNum
  y : JsNum
  w : JsNum
  h : JsNum
deriving DecidableEq

/-- `getBaseViewBox` of `Heatmap.tsx` (lines 27-37) evaluated in IEEE
semantics: `aspect = width / height` with no guard against zero or negative
container dimensions. -/
def getBaseViewBoxJs (width height : JsNum) : JsViewBox :=
  let aspect := jdiv width height
  let w := if jgt aspect (.fin 1) then jmul (.fin 100) aspect else .fin 100
  let h := if jgt aspect (.fin 1) then .fin 100 else jdiv (.fin 100) aspect
  { x := jsub (.fin 50) (jdiv w (.fin 2)),
    y := jsub (.fin 50) (jdiv h (.fin 2)),
    w := w, h := h }

/-- Concrete two-point data set used by witnesses (the scenario of spec §8:
points (10,10) and (12,11)). -/
def wA : TargetArea := ⟨1, 10, 10, 1, "", none⟩

/-- Second point of the witness data set. -/
def wB : TargetArea := ⟨2, 12, 11, 1, "", none⟩

/-- Three points sharing the x coordinate 0, used to exhibit the tie-breaking
order dependence of the clustering (C2). -/
def cA : TargetArea := ⟨1, 0, 0, 1, "", none⟩

/-- Second tied point, at (0,10). -/
def cB : TargetArea := ⟨2, 0, 10, 1, "", none⟩

/-- Third tied point, at (0,5). -/
def cC : TargetArea := ⟨3, 0, 5, 1, "", none⟩

/-- Collinear points at x = 0, 3, 4, 7 used to exhibit the non-monotonicity
of the merged-point count (C3). -/
def m1 : TargetArea := ⟨1, 0, 0, 1, "", none⟩

/-- Second collinear point, at x = 3. -/
def m2 : TargetArea := ⟨2, 3, 0, 1, "", none⟩

/-- Third collinear point, at x = 4. -/
def m3 : TargetArea := ⟨3, 4, 0, 1, "", none⟩

/-- Fourth collinear point, at x = 7. -/
def m4 : TargetArea := ⟨4, 7, 0, 1, "", none⟩

/-- Two points with unequal spans, (10,10) and (30,10), used to exhibit the
off-centre drill-down rectangle (C7). -/
def v1 : TargetArea := ⟨1, 10, 10, 1, "", none⟩

/-- Second drill-down point, at (30,10). -/
def v2 : TargetArea := ⟨2, 30, 10, 1, "", none⟩

/-- A multi-member cluster over `v1, v2`, used for the gesture counterexample
(C9). -/
def cl2 : Cluster := ⟨"cluster-1", 20, 10, [v1, v2], true⟩

/-- Concrete prediction result used by the C10 witness. -/
def rC10 : PredictionResult :=
  ⟨"High", "Low", 1, ["Alunite"], [⟨"Phyllic", "35%", "#aabbcc"⟩], [wA, wB],
    ["Drill"], "summary"⟩

/-- Folding `fun s c => s + f c` from `s` computes `s` plus the sum of the
mapped list (the `reduce((sum, c) => sum + c.x, 0)` and `forEach`
accumulation patterns of the source). -/
theorem foldl_add_map {M : Type} [AddCommMonoid M] (f : TargetArea → M)
    (l : List TargetArea) (s : M) :
    l.foldl (fun a c => a + f c) s = s + (l.map f).sum := by
  induction l generalizing s with
  | nil => simp
  | cons p rest ih => simp [ih, add_assoc]

/-- If a point `n` is within a threshold `t₁` of `p` then it is within any
larger threshold `t₂ ≥ t₁ ≥ 0`. -/
theorem withinThreshold_mono (p n : TargetArea) {t₁ t₂ : ℚ} (h0 : 0 ≤ t₁)
    (h12 : t₁ ≤ t₂) (h : withinThreshold p n t₁ = true) :
    withinThreshold p n t₂ = true := by
  simp only [withinThreshold, decide_eq_true_eq] at h ⊢
  exact ⟨h0.trans h12, h.2.trans (pow_le_pow_left₀ h0 h12 2)⟩

/-- Characterisation of the inner gathering loop: when the scanned list has
pairwise-distinct ids, the gathered neighbour list is exactly the sublist of
points whose id is not already used and which lie within the threshold (the
ids added during the scan never collide with later scanned ids). -/
theorem gatherCluster_fst (p : TargetArea) (t : ℚ) :
    ∀ (l : List TargetArea) (used : List Int), (l.map (·.id)).Nodup →
      (gatherCluster p t l used).1
        = l.filter (fun n => !decide (n.id ∈ used) && withinThreshold p n t) := by
  intro l
  induction l with
  | nil => intro used _; rfl
  | cons n rest ih =>
    intro used hnd
    simp only [List.map_cons, List.nodup_cons, List.mem_map] at hnd
    obtain ⟨hn, hrest⟩ := hnd
    have hne : ∀ m ∈ rest, m.id ≠ n.id := fun m hm he => hn ⟨m, hm, he⟩
    by_cases hu : n.id ∈ used
    · simp [gatherCluster, hu, ih used hrest, List.filter_cons]
    · by_cases hw : withinThreshold p n t
      · simp [gatherCluster, hu, hw, ih (n.id :: used) hrest, List.filter_cons]
        refine List.filter_congr fun m hm => ?_
        simp [hne m hm]
      · simp [gatherCluster, hu, hw, ih used hrest, List.filter_cons]

/-- Characterisation of the used-id list returned by the inner loop: it holds
exactly the previously used ids plus the ids of the gathered points. -/
theorem gatherCluster_snd_mem (p : TargetArea) (t : ℚ) :
    ∀ (l : List TargetArea) (used : List Int), (l.map (·.id)).Nodup →
      ∀ x, x ∈ (gatherCluster p t l used).2 ↔
        x ∈ used ∨ x ∈ ((gatherCluster p t l used).1.map (·.id)) := by
  intro l
  induction l with
  | nil => intro used _ x; simp [gatherCluster]
  | cons n rest ih =>
    intro used hnd x
    simp only [List.map_cons, List.nodup_cons, List.mem_map] at hnd
    obtain ⟨hn, hrest⟩ := hnd
    by_cases hu : n.id ∈ used
    · simpa [gatherCluster, hu] using ih used hrest x
    · by_cases hw : withinThreshold p n t
      · have := ih (n.id :: used) hrest x
        simp only [gatherCluster, if_neg hu, hw, if_pos] at *
        simp only [List.mem_cons] at this
        simp [this, List.mem_cons]
        tauto
      · simpa [gatherCluster, hu, hw] using ih used hrest x

/-- Every cluster built by the outer loop carries at least its seed point. -/
theorem buildClusters_points_nonempty (t : ℚ) :
    ∀ (l : List TargetArea) (used : List Int), ∀ c ∈ buildClusters t l used,
      c.points ≠ [] := by
  intro l
  induction l with
  | nil => intro used c hc; simp [buildClusters] at hc
  | cons p rest ih =>
    intro used c hc
    by_cases hu : p.id ∈ used
    · exact ih used c (by simpa [buildClusters, hu] using hc)
    · simp only [buildClusters, if_neg hu, List.mem_cons] at hc
      rcases hc with rfl | hc
      · simp
      · exact ih _ c hc

/-- Every cluster built by the outer loop has its centroid fields equal to
the arithmetic mean of its members' coordinates. -/
theorem buildClusters_centroid (t : ℚ) :
    ∀ (l : List TargetArea) (used : List Int), ∀ c ∈ buildClusters t l used,
      c.x = (c.points.map (·.x)).sum / c.points.length ∧
      c.y = (c.points.map (·.y)).sum / c.points.length := by
  intro l
  induction l with
  | nil => intro used c hc; simp [buildClusters] at hc
  | cons p rest ih =>
    intro used c hc
    by_cases hu : p.id ∈ used
    · exact ih used c (by simpa [buildClusters, hu] using hc)
    · simp only [buildClusters, if_neg hu, List.mem_cons] at hc
      rcases hc with rfl | hc
      · constructor <;> simp [clusterAvg, foldl_add_map]
      · exact ih _ c hc

/-- Core partition invariant of the greedy clustering loop: starting from any
used-id list, the concatenation of all member lists is a permutation of the
not-yet-used points, provided ids are pairwise distinct. -/
theorem buildClusters_flatten_perm (t : ℚ) :
    ∀ (l : List TargetArea) (used : List Int), (l.map (·.id)).Nodup →
      ((buildClusters t l used).flatMap (fun c => c.points)).Perm
        (l.filter (fun q => !decide (q.id ∈ used))) := by
  intro l
  induction l with
  | nil => intro used _; simp [buildClusters]
  | cons p rest ih =>
    intro used hnd
    simp only [List.map_cons, List.nodup_cons, List.mem_map] at hnd
    obtain ⟨hp, hrest⟩ := hnd
    have hne : ∀ m ∈ rest, m.id ≠ p.id := fun m hm he => hp ⟨m, hm, he⟩
    by_cases hu : p.id ∈ used
    · simpa [buildClusters, hu, List.filter_cons] using ih used hrest
    · have hfst := gatherCluster_fst p t rest (p.id :: used) hrest
      have hsnd := gatherCluster_snd_mem p t rest (p.id :: used) hrest
      have hflat := ih (gatherCluster p t rest (p.id :: used)).2 hrest
      have hinj : ∀ m ∈ rest,
          (m.id ∈ ((gatherCluster p t rest (p.id :: used)).1.map (·.id)) ↔
            (m.id ∉ used ∧ withinThreshold p m t = true)) := by
        intro m hm
        rw [hfst]
        constructor
        · rintro hmem
          simp only [List.mem_map] at hmem
          obtain ⟨m', hm', he⟩ := hmem
          have hm'r := List.mem_of_mem_filter hm'
          have heq : m' = m := List.inj_on_of_nodup_map hrest hm'r hm he
          subst heq
          have hpred := List.of_mem_filter hm'
          simp only [Bool.and_eq_true, Bool.not_eq_true', decide_eq_false_iff_not,
            List.mem_cons, not_or] at hpred
          exact ⟨hpred.1.2, hpred.2⟩
        · rintro ⟨hnu, hwt⟩
          refine List.mem_map.mpr ⟨m, ?_, rfl⟩
          refine List.mem_filter.mpr ⟨hm, ?_⟩
          simp [List.mem_cons, hne m hm, hnu, hwt]
      -- the recursive flatten is, up to permutation, the not-yet-used points
      -- that the gather step did not pick
      have hstepA :
          rest.filter (fun q => !decide (q.id ∈ (gatherCluster p t rest (p.id :: used)).2))
            = rest.filter (fun q => !decide (q.id ∈ used) && !(withinThreshold p q t)) := by
        refine List.filter_congr fun m hm => ?_
        have h2 : m.id ∈ (gatherCluster p t rest (p.id :: used)).2 ↔
            (m.id ∈ used ∨ withinThreshold p m t = true) := by
          rw [hsnd m.id, hinj m hm]
          simp only [List.mem_cons, hne m hm, false_or]
          tauto
        cases hwt : withinThreshold p m t <;> by_cases hmu : m.id ∈ used <;>
          simp [h2, hwt, hmu]
      -- the gathered members are the not-yet-used points within threshold
      have hstepB :
          (gatherCluster p t rest (p.id :: used)).1
            = rest.filter (fun q => !decide (q.id ∈ used) && withinThreshold p q t) := by
        rw [hfst]
        refine List.filter_congr fun m hm => ?_
        simp [List.mem_cons, hne m hm]
      simp only [buildClusters, if_neg hu, List.flatMap_cons, List.filter_cons,
        Bool.not_eq_true', decide_eq_false_iff_not]
      rw [if_pos hu]
      rw [List.cons_append]
      refine List.Perm.cons p ?_
      rw [hstepB]
      have handcomm : ∀ (f g : TargetArea → Bool) (l' : List TargetArea),
          l'.filter (fun a => f a && g a) = l'.filter (fun a => g a && f a) := by
        intro f g l'
        refine List.filter_congr fun m _ => ?_
        cases hf : f m <;> cases hg : g m <;> rfl
      have hsplit :
          (rest.filter (fun q => !decide (q.id ∈ used) && withinThreshold p q t) ++
            rest.filter (fun q => !decide (q.id ∈ used) && !(withinThreshold p q t))).Perm
            (rest.filter (fun q => !decide (q.id ∈ used))) := by
        have h1 := List.filter_filter (p := fun q => withinThreshold p q t)
          (fun q : TargetArea => !decide (q.id ∈ used)) rest
        have h2 := List.filter_filter (p := fun q => !(withinThreshold p q t))
          (fun q : TargetArea => !decide (q.id ∈ used)) rest
        rw [handcomm (fun q => !decide (q.id ∈ used)) (fun q => withinThreshold p q t) rest,
          ← h1,
          handcomm (fun q => !decide (q.id ∈ used)) (fun q => !(withinThreshold p q t)) rest,
          ← h2]
        exact List.filter_append_perm _ _
      exact (List.Perm.append_left _ (hstepA ▸ hflat)).trans hsplit

/-- The `Bool` encoding of the distance test agrees with the real-number
reading `√((nx-px)² + (ny-py)²) ≤ t` of the source. -/
theorem withinThreshold_iff_sqrt (p n : TargetArea) (t : ℚ) :
    withinThreshold p n t = true ↔
      Real.sqrt ((((n.x - p.x : ℚ)) : ℝ) ^ 2 + (((n.y - p.y : ℚ)) : ℝ) ^ 2) ≤ (t : ℚ) := by
  rw [Real.sqrt_le_iff, withinThreshold]
  simp only [decide_eq_true_eq]
  constructor
  · rintro ⟨ht, hd⟩
    refine ⟨by exact_mod_cast ht, ?_⟩
    push_cast
    exact_mod_cast hd
  · rintro ⟨ht, hd⟩
    refine ⟨by exact_mod_cast ht, ?_⟩
    exact_mod_cast hd

/-- C1: for every point set with pairwise-distinct ids and every viewport
width, the member lists of the produced clusters partition the input — their
concatenation is a permutation of the input and is duplicate-free, so every
input point appears in exactly one cluster — every cluster has at least one
member, and each cluster's centroid is the arithmetic mean of its members'
x coordinates and of their y coordinates. -/
theorem clusters_partition (P : List TargetArea) (w : ℚ)
    (hids : (P.map (·.id)).Nodup) :
    ((clusters P w).flatMap (fun c => c.points)).Perm P ∧
    ((clusters P w).flatMap (fun c => c.points)).Nodup ∧
    (∀ c ∈ clusters P w, c.points ≠ []) ∧
    (∀ c ∈ clusters P w,
      c.x = (c.points.map (·.x)).sum / c.points.length ∧
      c.y = (c.points.map (·.y)).sum / c.points.length) := by
  have hperm : (sortByX P).Perm P := List.perm_insertionSort _ P
  have hnd : ((sortByX P).map (·.id)).Nodup := ((hperm.map (·.id)).nodup_iff).mpr hids
  have hflat : ((clusters P w).flatMap (fun c => c.points)).Perm P := by
    have h := buildClusters_flatten_perm (w * (8 / 100)) (sortByX P) [] hnd
    have h2 : (sortByX P).filter (fun q => !decide (q.id ∈ ([] : List Int)))
        = sortByX P := by simp
    rw [h2] at h
    exact h.trans hperm
  refine ⟨hflat, ?_, fun c hc => buildClusters_points_nonempty _ _ _ c hc,
    fun c hc => buildClusters_centroid _ _ _ c hc⟩
  exact hflat.nodup_iff.mpr (List.Nodup.of_map _ hids)

/-- Witness for C1 at the concrete two-point set of spec §8 and width 50. -/
theorem clusters_partition_witness :
    ((clusters [wA, wB] 50).flatMap (fun c => c.points)).Perm [wA, wB] ∧
    ((clusters [wA, wB] 50).flatMap (fun c => c.points)).Nodup ∧
    (∀ c ∈ clusters [wA, wB] 50, c.points ≠ []) ∧
    (∀ c ∈ clusters [wA, wB] 50,
      c.x = (c.points.map (·.x)).sum / c.points.length ∧
      c.y = (c.points.map (·.y)).sum / c.points.length) :=
  clusters_partition [wA, wB] 50 (by decide)

/-- C2 counterexample: with points tied in x, clustering a permutation of the
input yields different membership sets.  At width 75 the threshold is 6; on
`[cA, cB, cC]` the clusters have id sets {1,3} and {2}, while on the
permutation `[cB, cA, cC]` they have id sets {2,3} and {1}. -/
theorem clusters_order_dependent :
    ([cB, cA, cC] : List TargetArea).Perm [cA, cB, cC] ∧
    (clusters [cA, cB, cC] 75).map (fun c => c.points.map (·.id)) = [[1, 3], [2]] ∧
    (clusters [cB, cA, cC] 75).map (fun c => c.points.map (·.id)) = [[2, 3], [1]] := by
  refine ⟨by decide, ?_, ?_⟩ <;>
    norm_num [clusters, buildClusters, gatherCluster, withinThreshold, sortByX,
      List.insertionSort, List.orderedInsert, clusterAvg, cA, cB, cC]

/-- C2 amended: when the x coordinates of the point set are pairwise
distinct, the stable sort admits a unique result, so clustering any
permutation of the input produces the identical cluster list (hence
identical membership sets); with ties in x the membership can differ, as
`clusters_order_dependent` shows. -/
theorem clusters_perm_invariant (P Q : List TargetArea) (w : ℚ)
    (hperm : Q.Perm P) (hx : P.Pairwise (fun a b => a.x ≠ b.x)) :
    clusters Q w = clusters P w := by
  have hiQ : (sortByX Q).Perm Q := List.perm_insertionSort _ Q
  have hiP : (sortByX P).Perm P := List.perm_insertionSort _ P
  have hQP : (sortByX Q).Perm (sortByX P) := (hiQ.trans hperm).trans hiP.symm
  haveI : IsTotal TargetArea (fun a b => a.x ≤ b.x) := ⟨fun a b => le_total a.x b.x⟩
  haveI : IsTrans TargetArea (fun a b => a.x ≤ b.x) :=
    ⟨fun _ _ _ h1 h2 => le_trans h1 h2⟩
  have hsQ : (sortByX Q).Sorted (fun a b => a.x ≤ b.x) := List.sorted_insertionSort _ Q
  have hsP : (sortByX P).Sorted (fun a b => a.x ≤ b.x) := List.sorted_insertionSort _ P
  have hxP : (sortByX P).Pairwise (fun a b => a.x ≠ b.x) :=
    (hiP.pairwise_iff (fun h => Ne.symm h)).mpr hx
  have hxQ : (sortByX Q).Pairwise (fun a b => a.x ≠ b.x) :=
    ((hiQ.trans hperm).pairwise_iff (fun h => Ne.symm h)).mpr hx
  have hstrQ : (sortByX Q).Pairwise (fun a b => a.x < b.x) :=
    (List.Pairwise.and hsQ hxQ).imp fun h => lt_of_le_of_ne h.1 h.2
  have hstrP : (sortByX P).Pairwise (fun a b => a.x < b.x) :=
    (List.Pairwise.and hsP hxP).imp fun h => lt_of_le_of_ne h.1 h.2
  haveI : IsAntisymm TargetArea (fun a b => a.x < b.x) :=
    ⟨fun _ _ h1 h2 => absurd (h1.trans h2) (lt_irrefl _)⟩
  have heq : sortByX Q = sortByX P := List.eq_of_perm_of_sorted hQP hstrQ hstrP
  simp only [clusters, heq]

/-- Witness for the amended C2 at a concrete permuted pair with distinct x
coordinates. -/
theorem clusters_perm_invariant_witness :
    clusters [wB, wA] 50 = clusters [wA, wB] 50 :=
  clusters_perm_invariant [wA, wB] [wB, wA] 50 (by decide) (by decide)

/-- C3 counterexample: for the fixed collinear point set at x = 0, 3, 4, 7,
widening the viewport from 37.5 (threshold 3) to 50 (threshold 4) lowers the
number of points in multi-member clusters from 4 ({1,2} and {3,4}) to 3
({1,2,3} with 4 left single): the count is not monotone in the width. -/
theorem mergedPointCount_not_monotone :
    ((75 : ℚ) / 2) ≤ 50 ∧
    mergedPointCount [m1, m2, m3, m4] (75 / 2) = 4 ∧
    mergedPointCount [m1, m2, m3, m4] 50 = 3 := by
  refine ⟨by norm_num, ?_, ?_⟩ <;>
    norm_num [mergedPointCount, clusters, buildClusters, gatherCluster,
      withinThreshold, sortByX, List.insertionSort, List.orderedInsert,
      clusterAvg, m1, m2, m3, m4]

/-- C3 amended: the merge threshold `0.08 * w` is monotone in the width, and
the membership of the first emitted cluster (the one seeded at the lowest-x
point) is monotonically non-decreasing in the width, but the total number of
points in multi-member clusters is not monotone, as
`mergedPointCount_not_monotone` shows. -/
theorem firstCluster_monotone (P : List TargetArea) (w1 w2 : ℚ)
    (hids : (P.map (·.id)).Nodup) (h0 : 0 ≤ w1) (h12 : w1 ≤ w2) :
    w1 * (8 / 100) ≤ w2 * (8 / 100) ∧
    ∀ c1 ∈ (clusters P w1).head?, ∀ c2 ∈ (clusters P w2).head?,
      ∀ q ∈ c1.points, q ∈ c2.points := by
  have ht12 : w1 * (8 / 100) ≤ w2 * (8 / 100) :=
    mul_le_mul_of_nonneg_right h12 (by norm_num)
  have ht0 : 0 ≤ w1 * (8 / 100) := mul_nonneg h0 (by norm_num)
  refine ⟨ht12, ?_⟩
  have hnd : ((sortByX P).map (·.id)).Nodup :=
    (((List.perm_insertionSort _ P).map (·.id)).nodup_iff).mpr hids
  intro c1 hc1 c2 hc2 q hq
  rcases hs : sortByX P with _ | ⟨p, rest⟩
  · simp [clusters, hs, buildClusters] at hc1
  · rw [hs] at hnd
    simp only [List.map_cons, List.nodup_cons, List.mem_map] at hnd
    obtain ⟨_, hrest⟩ := hnd
    simp only [clusters, hs, buildClusters, List.mem_nil_iff, if_neg, if_false,
      List.head?_cons, Option.mem_def, Option.some.injEq] at hc1 hc2
    subst hc1
    subst hc2
    simp only [List.mem_cons] at hq ⊢
    rcases hq with rfl | hq
    · exact Or.inl rfl
    · right
      rw [gatherCluster_fst p _ rest _ hrest] at hq ⊢
      rw [List.mem_filter] at hq ⊢
      refine ⟨hq.1, ?_⟩
      have h1 := hq.2
      simp only [Bool.and_eq_true, Bool.not_eq_true', decide_eq_false_iff_not] at h1 ⊢
      exact ⟨h1.1, withinThreshold_mono p q ht0 ht12 h1.2⟩

/-- Witness for the amended C3 on the concrete collinear point set with
widths 20 and 50. -/
theorem firstCluster_monotone_witness :
    (20 : ℚ) * (8 / 100) ≤ 50 * (8 / 100) ∧
    ∀ c1 ∈ (clusters [m1, m2, m3, m4] 20).head?,
      ∀ c2 ∈ (clusters [m1, m2, m3, m4] 50).head?,
        ∀ q ∈ c1.points, q ∈ c2.points :=
  firstCluster_monotone [m1, m2, m3, m4] 20 50 (by decide) (by norm_num)
    (by norm_num)

/-- C5: an incremental drag move of `(dx, dy)` pixels translates the
view-box origin by the pixel delta scaled by extent/containerExtent on each
axis, leaves both extents unchanged, applies no bounds clamping (the origin
is exactly the unclamped translation), and keeps the data-space point that
was under the cursor before the move exactly under the moved cursor. -/
theorem panBy_pure_translation (vb : ViewBox) (dx dy width height mx my : ℚ)
    (hw : width ≠ 0) (hh : height ≠ 0) :
    (panBy vb dx dy width height).w = vb.w ∧
    (panBy vb dx dy width height).h = vb.h ∧
    (panBy vb dx dy width height).x = vb.x - dx * vb.w / width ∧
    (panBy vb dx dy width height).y = vb.y - dy * vb.h / height ∧
    pixelToData (panBy vb dx dy width height) width height (mx + dx) (my + dy)
      = pixelToData vb width height mx my := by
  refine ⟨rfl, rfl, by simp only [panBy]; ring, by simp only [panBy]; ring, ?_⟩
  simp only [panBy, pixelToData, Prod.mk.injEq]
  constructor <;> (field_simp; ring)

/-- Witness for C5 at a concrete view box, drag delta and cursor position. -/
theorem panBy_pure_translation_witness :
    (panBy ⟨20, 30, 150, 100⟩ 30 (-20) 600 400 |>.w) = 150 ∧
    (panBy ⟨20, 30, 150, 100⟩ 30 (-20) 600 400 |>.h) = 100 ∧
    (panBy ⟨20, 30, 150, 100⟩ 30 (-20) 600 400 |>.x) = 20 - 30 * 150 / 600 ∧
    (panBy ⟨20, 30, 150, 100⟩ 30 (-20) 600 400 |>.y) = 30 - (-20) * 100 / 400 ∧
    pixelToData (panBy ⟨20, 30, 150, 100⟩ 30 (-20) 600 400) 600 400 (100 + 30)
        (200 + -20)
      = pixelToData ⟨20, 30, 150, 100⟩ 600 400 100 200 :=
  panBy_pure_translation ⟨20, 30, 150, 100⟩ 30 (-20) 600 400 100 200
    (by norm_num) (by norm_num)

/-- The base view box width is always at least 100 data units. -/
theorem getBaseViewBox_w_ge (width height : ℚ) :
    100 ≤ (getBaseViewBox width height).w := by
  simp only [getBaseViewBox]
  split_ifs with h
  · linarith
  · exact le_refl _

/-- C6 counterexample: the step-zoom handler applies no origin clamping.
Starting from the rectangle ⟨-500, 0, 10, 10⟩ in a 400×400 container (base
rectangle ⟨0, 0, 100, 100⟩), a zoom-in by factor 3/4 passes both no-op
guards yet returns origin x = -498.75, far below the buffered lower bound
`base.x - base.w/2 = -50` that the claimed clamping would enforce. -/
theorem handleZoom_no_clamp :
    handleZoom 400 400 ⟨-500, 0, 10, 10⟩ (3 / 4) = ⟨-1995/4, 5/4, 15/2, 15/2⟩ ∧
    (handleZoom 400 400 ⟨-500, 0, 10, 10⟩ (3 / 4)).x <
      (getBaseViewBox 400 400).x - (getBaseViewBox 400 400).w / 2 := by
  have h : handleZoom 400 400 ⟨-500, 0, 10, 10⟩ (3 / 4) = ⟨-1995/4, 5/4, 15/2, 15/2⟩ := by
    norm_num [handleZoom, getBaseViewBox]
  refine ⟨h, ?_⟩
  rw [h]
  norm_num [getBaseViewBox]

/-- C6 amended: a zoom-out request (factor > 1) at or above the base width
returns the base rectangle; a zoom-in request that would take the width
below the 2-unit floor returns the rectangle unchanged; otherwise both
extents are scaled by the factor about the rectangle's own centre — with no
origin clamping against the buffered base bounds (unlike the wheel zoom), as
`handleZoom_no_clamp` shows. -/
theorem handleZoom_cases (width height : ℚ) (prev : ViewBox) (factor : ℚ) :
    (1 < factor → (getBaseViewBox width height).w ≤ prev.w →
      handleZoom width height prev factor = getBaseViewBox width height) ∧
    (prev.w * factor < 2 → handleZoom width height prev factor = prev) ∧
    (2 ≤ prev.w * factor → prev.w * factor ≤ (getBaseViewBox width height).w →
      handleZoom width height prev factor =
        { x := prev.x + (prev.w - prev.w * factor) / 2,
          y := prev.y + (prev.h - prev.h * factor) / 2,
          w := prev.w * factor, h := prev.h * factor } ∧
      (handleZoom width height prev factor).x +
          (handleZoom width height prev factor).w / 2 = prev.x + prev.w / 2 ∧
      (handleZoom width height prev factor).y +
          (handleZoom width height prev factor).h / 2 = prev.y + prev.h / 2) := by
  have hbw := getBaseViewBox_w_ge width height
  refine ⟨?_, ?_, ?_⟩
  · intro hf hw
    have hpw : (0 : ℚ) < prev.w := lt_of_lt_of_le (by norm_num) (le_trans hbw hw)
    have hgt : (getBaseViewBox width height).w < prev.w * factor := by nlinarith
    simp only [handleZoom]
    rw [if_pos hgt]
  · intro h2
    have hnb : ¬ ((getBaseViewBox width height).w < prev.w * factor) := by linarith
    simp only [handleZoom]
    rw [if_neg hnb, if_pos h2]
  · intro hlo hhi
    have h1 : ¬ ((getBaseViewBox width height).w < prev.w * factor) := not_lt.mpr hhi
    have h2 : ¬ (prev.w * factor < 2) := not_lt.mpr hlo
    have heq : handleZoom width height prev factor =
        { x := prev.x + (prev.w - prev.w * factor) / 2,
          y := prev.y + (prev.h - prev.h * factor) / 2,
          w := prev.w * factor, h := prev.h * factor } := by
      simp only [handleZoom]
      rw [if_neg h1, if_neg h2]
    refine ⟨heq, ?_, ?_⟩ <;> rw [heq] <;> ring

/-- Witness for the amended C6: an in-range zoom-in step from ⟨45,45,10,10⟩
by factor 1/2 in a 400×400 container scales about the centre. -/
theorem handleZoom_cases_witness :
    handleZoom 400 400 ⟨45, 45, 10, 10⟩ (1 / 2) =
      { x := 45 + (10 - 10 * (1 / 2)) / 2, y := 45 + (10 - 10 * (1 / 2)) / 2,
        w := 10 * (1 / 2), h := 10 * (1 / 2) } :=
  ((handleZoom_cases 400 400 ⟨45, 45, 10, 10⟩ (1 / 2)).2.2 (by norm_num)
    (by norm_num [getBaseViewBox])).1

/-- C9 counterexample: with accumulated Manhattan displacement exactly 5
pixels, the container click does not clear the selection (its guard is
`< 5`), yet a click landing on a cluster still fires its action (the cluster
guard only bails out for `> 5`) — contradicting the claim that at 5 pixels
or more neither action occurs. -/
theorem clickThreshold_boundary :
    dragDistance [(2, 1), (1, 1)] = 5 ∧
    resolveClick (3 / 2) (some cl2) (dragDistance [(2, 1), (1, 1)]) ≠ .noAction ∧
    resolveClick (3 / 2) none (dragDistance [(2, 1), (1, 1)]) = .noAction := by
  have hd : dragDistance [(2, 1), (1, 1)] = 5 := by
    norm_num [dragDistance]
  refine ⟨hd, ?_, ?_⟩
  · rw [hd]
    have hres : resolveClick (3 / 2) (some cl2) 5
        = .drilled (zoomToCluster (3 / 2) [v1, v2]) := by
      norm_num [resolveClick, cl2]
    rw [hres]
    exact fun hcon => GestureOutcome.noConfusion hcon
  · rw [hd]
    norm_num [resolveClick]

/-- C9 amended: an empty-space click clears the selection iff the
accumulated displacement is strictly below 5 pixels, while a click landing
on a cluster performs its action (drill-down for multi-member clusters,
selection for singles) iff the displacement is at most 5 pixels — so at
exactly 5 pixels the cluster action still fires; and because cluster
hit-testing stops propagation, a cluster-hit gesture never clears the
selection, so the two actions are never both applied. -/
theorem resolveClick_classification (aspect d : ℚ) (c : Cluster)
    (p : TargetArea) (rest : List TargetArea) (hpts : c.points = p :: rest) :
    (resolveClick aspect none d = .cleared ↔ d < 5) ∧
    (resolveClick aspect (some c) d = .noAction ↔ 5 < d) ∧
    (c.isCluster = true → d ≤ 5 →
      resolveClick aspect (some c) d = .drilled (zoomToCluster aspect c.points)) ∧
    (c.isCluster = false → d ≤ 5 →
      resolveClick aspect (some c) d = .selected p.id) ∧
    (∀ d' : ℚ, resolveClick aspect (some c) d' ≠ .cleared) := by
  refine ⟨?_, ?_, ?_, ?_, ?_⟩
  · by_cases h : d < 5 <;> simp [resolveClick, h]
  · by_cases h : 5 < d
    · simp [resolveClick, h]
    · cases hc : c.isCluster <;> simp [resolveClick, h, hc, hpts]
  · intro hc hle
    have h : ¬ (5 : ℚ) < d := not_lt.mpr hle
    simp [resolveClick, h, hc]
  · intro hc hle
    have h : ¬ (5 : ℚ) < d := not_lt.mpr hle
    simp [resolveClick, h, hc, hpts]
  · intro d'
    by_cases h : 5 < d' <;> cases hc : c.isCluster <;>
      simp [resolveClick, h, hc, hpts]

/-- Witness for the amended C9 at the concrete cluster `cl2`. -/
theorem resolveClick_classification_witness :
    (resolveClick (3 / 2) none 3 = .cleared ↔ (3 : ℚ) < 5) ∧
    (resolveClick (3 / 2) (some cl2) 3 = .noAction ↔ (5 : ℚ) < 3) ∧
    (cl2.isCluster = true → (3 : ℚ) ≤ 5 →
      resolveClick (3 / 2) (some cl2) 3 = .drilled (zoomToCluster (3 / 2) cl2.points)) ∧
    (cl2.isCluster = false → (3 : ℚ) ≤ 5 →
      resolveClick (3 / 2) (some cl2) 3 = .selected v1.id) ∧
    (∀ d' : ℚ, resolveClick (3 / 2) (some cl2) d' ≠ .cleared) :=
  resolveClick_classification (3 / 2) 3 cl2 v1 [v2] rfl

/-- C10: the description-update handler of the point-set owner replaces only
the description of the target whose id matches: every other field of the
analysis result is unchanged, the target list keeps its length, every
position keeps its id, coordinates, probability and reasoning, a
non-matching target is returned untouched, and if no target carries the
given id the whole target list is unchanged. -/
theorem handleUpdateTargetDescription_frame (r : PredictionResult) (id : Int)
    (txt : String) :
    (handleUpdateTargetDescription r id txt).porphyryPotential = r.porphyryPotential ∧
    (handleUpdateTargetDescription r id txt).epithermalPotential = r.epithermalPotential ∧
    (handleUpdateTargetDescription r id txt).confidenceScore = r.confidenceScore ∧
    (handleUpdateTargetDescription r id txt).alterationMinerals = r.alterationMinerals ∧
    (handleUpdateTargetDescription r id txt).zones = r.zones ∧
    (handleUpdateTargetDescription r id txt).recommendedActions = r.recommendedActions ∧
    (handleUpdateTargetDescription r id txt).reasoning = r.reasoning ∧
    (handleUpdateTargetDescription r id txt).targetAreas.length = r.targetAreas.length ∧
    (∀ (i : ℕ) (t : TargetArea), r.targetAreas[i]? = some t →
      ∃ t', (handleUpdateTargetDescription r id txt).targetAreas[i]? = some t' ∧
        t'.id = t.id ∧ t'.x = t.x ∧ t'.y = t.y ∧
        t'.probability = t.probability ∧ t'.reasoning = t.reasoning ∧
        (t.id = id → t'.description = txt) ∧
        (t.id ≠ id → t' = t)) ∧
    ((∀ t ∈ r.targetAreas, t.id ≠ id) →
      (handleUpdateTargetDescription r id txt).targetAreas = r.targetAreas) := by
  refine ⟨rfl, rfl, rfl, rfl, rfl, rfl, rfl,
    by simp [handleUpdateTargetDescription], ?_, ?_⟩
  · intro i t ht
    refine ⟨if t.id = id then { t with description := txt } else t, ?_, ?_⟩
    · simp [handleUpdateTargetDescription, List.getElem?_map, ht]
    · by_cases h : t.id = id <;> simp [h]
  · intro hall
    simp only [handleUpdateTargetDescription]
    have h : r.targetAreas.map (fun target =>
        if target.id = id then { target with description := txt } else target)
          = r.targetAreas.map (fun target => target) :=
      List.map_congr_left fun t ht => by simp [hall t ht]
    simpa using h

/-- Witness for C10 on a concrete analysis result, updating target id 2. -/
theorem handleUpdateTargetDescription_frame_witness :
    ∃ t', (handleUpdateTargetDescription rC10 2 "edited").targetAreas[1]? = some t' ∧
      t'.id = wB.id ∧ t'.x = wB.x ∧ t'.y = wB.y ∧
      t'.probability = wB.probability ∧ t'.reasoning = wB.reasoning ∧
      (wB.id = 2 → t'.description = "edited") ∧
      (wB.id ≠ 2 → t' = wB) :=
  (handleUpdateTargetDescription_frame rC10 2 "edited").2.2.2.2.2.2.2.2.1 1 wB rfl

/-- The squared-distance form of the Gaussian influence: squaring the
`Math.sqrt` of the source cancels it. -/
theorem influence_eq (t : TargetArea) (cx cy : ℚ) :
    influence t cx cy = (t.probability : ℝ) *
      Real.exp (-(((cx : ℝ) - (t.x : ℝ)) ^ 2 + ((cy : ℝ) - (t.y : ℝ)) ^ 2) / 100) := by
  have h : (0 : ℝ) ≤ ((cx : ℝ) - (t.x : ℝ)) ^ 2 + ((cy : ℝ) - (t.y : ℝ)) ^ 2 :=
    add_nonneg (sq_nonneg _) (sq_nonneg _)
  simp only [influence]
  rw [Real.mul_self_sqrt h]

/-- The accumulated cell intensity is the clamped sum of the Gaussian
influences in squared-distance form. -/
theorem cellIntensity_eq (P : List TargetArea) (cx cy : ℚ) :
    cellIntensity P cx cy =
      min ((P.map (fun t => (t.probability : ℝ) *
        Real.exp (-(((cx : ℝ) - (t.x : ℝ)) ^ 2 + ((cy : ℝ) - (t.y : ℝ)) ^ 2) / 100))).sum)
        1 := by
  simp only [cellIntensity, foldl_add_map, zero_add]
  congr 1
  exact congrArg List.sum (List.map_congr_left fun t _ => influence_eq t cx cy)

/-- Membership description of the density grid: every cell is the `(i, j)`
cell of the 30×30 grid for some indices below 30. -/
theorem cells_mem (vb : ViewBox) (P : List TargetArea) :
    ∀ c ∈ cells vb P, ∃ i j : ℕ, i < 30 ∧ j < 30 ∧
      c = { x := vb.x + (i : ℚ) * (vb.w / 30), y := vb.y + (j : ℚ) * (vb.h / 30),
            w := vb.w / 30, h := vb.h / 30,
            intensity := cellIntensity P (vb.x + (i : ℚ) * (vb.w / 30) + vb.w / 30 / 2)
              (vb.y + (j : ℚ) * (vb.h / 30) + vb.h / 30 / 2) } := by
  intro c hc
  rcases List.mem_flatMap.mp hc with ⟨i, hi, hmem⟩
  rcases List.mem_map.mp hmem with ⟨j, hj, hcj⟩
  exact ⟨i, j, List.mem_range.mp hi, List.mem_range.mp hj, hcj.symm⟩

/-- C4: the density grid consists of exactly 900 cells; each cell's
intensity equals `min(1, Σ probability·exp(-d²/100))` with `d` the distance
from the cell centre to each point; given probabilities in `[0,1]` every
intensity lies in `[0,1]`; a cell whose centre coincides with the single
point of probability 1 has intensity exactly 1; and the empty point set
yields intensity 0 in every cell. -/
theorem cells_spec (vb : ViewBox) (P : List TargetArea)
    (hp : ∀ t ∈ P, 0 ≤ t.probability ∧ t.probability ≤ 1) :
    (cells vb P).length = 900 ∧
    (∀ c ∈ cells vb P, c.intensity =
      min ((P.map (fun t => (t.probability : ℝ) *
        Real.exp (-((((c.x + c.w / 2 : ℚ) : ℝ) - (t.x : ℝ)) ^ 2 +
          (((c.y + c.h / 2 : ℚ) : ℝ) - (t.y : ℝ)) ^ 2) / 100))).sum) 1) ∧
    (∀ c ∈ cells vb P, 0 ≤ c.intensity ∧ c.intensity ≤ 1) ∧
    (P = [] → ∀ c ∈ cells vb P, c.intensity = 0) ∧
    (∀ c ∈ cells vb P, ∀ t, P = [t] → t.probability = 1 →
      c.x + c.w / 2 = t.x → c.y + c.h / 2 = t.y → c.intensity = 1) := by
  have hint : ∀ c ∈ cells vb P,
      c.intensity = cellIntensity P (c.x + c.w / 2) (c.y + c.h / 2) := by
    intro c hc
    obtain ⟨i, j, _, _, rfl⟩ := cells_mem vb P c hc
    rfl
  have hlen : (cells vb P).length = 900 := by
    simp only [cells, List.length_flatMap, Function.comp_def, List.length_map,
      List.length_range, List.map_const', List.sum_replicate, smul_eq_mul]
  refine ⟨hlen, ?_, ?_, ?_, ?_⟩
  · intro c hc
    rw [hint c hc, cellIntensity_eq]
  · intro c hc
    rw [hint c hc, cellIntensity_eq]
    constructor
    · refine le_min ?_ zero_le_one
      refine List.sum_nonneg ?_
      intro v hv
      simp only [List.mem_map] at hv
      obtain ⟨t, ht, rfl⟩ := hv
      have h0 : (0 : ℝ) ≤ (t.probability : ℝ) := by
        exact_mod_cast (hp t ht).1
      exact mul_nonneg h0 (Real.exp_nonneg _)
    · exact min_le_right _ _
  · intro hP c hc
    rw [hint c hc, hP]
    simp [cellIntensity]
  · intro c hc t hP hprob hx hy
    rw [hint c hc, hP, cellIntensity_eq]
    have hx' : ((c.x + c.w / 2 : ℚ) : ℝ) = (t.x : ℝ) := by exact_mod_cast hx
    have hy' : ((c.y + c.h / 2 : ℚ) : ℝ) = (t.y : ℝ) := by exact_mod_cast hy
    simp [hx', hy', hprob]

/-- Witness for C4 at the base view box and the single point (10,10) with
probability 1. -/
theorem cells_spec_witness :
    (cells ⟨0, 0, 100, 100⟩ [wA]).length = 900 ∧
    (∀ c ∈ cells ⟨0, 0, 100, 100⟩ [wA], c.intensity =
      min (([wA].map (fun t => (t.probability : ℝ) *
        Real.exp (-((((c.x + c.w / 2 : ℚ) : ℝ) - (t.x : ℝ)) ^ 2 +
          (((c.y + c.h / 2 : ℚ) : ℝ) - (t.y : ℝ)) ^ 2) / 100))).sum) 1) ∧
    (∀ c ∈ cells ⟨0, 0, 100, 100⟩ [wA], 0 ≤ c.intensity ∧ c.intensity ≤ 1) ∧
    (([wA] : List TargetArea) = [] → ∀ c ∈ cells ⟨0, 0, 100, 100⟩ [wA],
      c.intensity = 0) ∧
    (∀ c ∈ cells ⟨0, 0, 100, 100⟩ [wA], ∀ t, ([wA] : List TargetArea) = [t] →
      t.probability = 1 → c.x + c.w / 2 = t.x → c.y + c.h / 2 = t.y →
      c.intensity = 1) :=
  cells_spec ⟨0, 0, 100, 100⟩ [wA] (by simp [wA])

/-- Folding `min` never rises above the initial accumulator. -/
theorem foldl_min_le_init (l : List ℚ) : ∀ a : ℚ, l.foldl min a ≤ a := by
  induction l with
  | nil => intro a; exact le_refl a
  | cons b rest ih => intro a; exact le_trans (ih (min a b)) (min_le_left a b)

/-- Folding `min` is a lower bound of the list members. -/
theorem foldl_min_le_mem (l : List ℚ) : ∀ (a : ℚ), ∀ x ∈ l, l.foldl min a ≤ x := by
  induction l with
  | nil => intro a x hx; exact absurd hx (List.not_mem_nil x)
  | cons b rest ih =>
    intro a x hx
    rcases List.mem_cons.mp hx with rfl | hx
    · exact le_trans (foldl_min_le_init rest (min a x)) (min_le_right a x)
    · exact ih (min a b) x hx

/-- Folding `min` yields the initial accumulator or a list member. -/
theorem foldl_min_mem (l : List ℚ) :
    ∀ a : ℚ, l.foldl min a = a ∨ l.foldl min a ∈ l := by
  induction l with
  | nil => intro a; exact Or.inl rfl
  | cons b rest ih =>
    intro a
    rw [List.foldl_cons]
    rcases ih (min a b) with h | h
    · rcases min_choice a b with hm | hm
      · exact Or.inl (h.trans hm)
      · rw [h, hm]
        exact Or.inr (List.mem_cons_self b rest)
    · exact Or.inr (List.mem_cons_of_mem b h)

/-- Folding `max` never falls below the initial accumulator. -/
theorem foldl_max_ge_init (l : List ℚ) : ∀ a : ℚ, a ≤ l.foldl max a := by
  induction l with
  | nil => intro a; exact le_refl a
  | cons b rest ih => intro a; exact le_trans (le_max_left a b) (ih (max a b))

/-- Folding `max` is an upper bound of the list members. -/
theorem foldl_max_ge_mem (l : List ℚ) : ∀ (a : ℚ), ∀ x ∈ l, x ≤ l.foldl max a := by
  induction l with
  | nil => intro a x hx; exact absurd hx (List.not_mem_nil x)
  | cons b rest ih =>
    intro a x hx
    rcases List.mem_cons.mp hx with rfl | hx
    · exact le_trans (le_max_right a x) (foldl_max_ge_init rest (max a x))
    · exact ih (max a b) x hx

/-- Folding `max` yields the initial accumulator or a list member. -/
theorem foldl_max_mem (l : List ℚ) :
    ∀ a : ℚ, l.foldl max a = a ∨ l.foldl max a ∈ l := by
  induction l with
  | nil => intro a; exact Or.inl rfl
  | cons b rest ih =>
    intro a
    rw [List.foldl_cons]
    rcases ih (max a b) with h | h
    · rcases max_choice a b with hm | hm
      · exact Or.inl (h.trans hm)
      · rw [h, hm]
        exact Or.inr (List.mem_cons_self b rest)
    · exact Or.inr (List.mem_cons_of_mem b h)

/-- The bounding-box fold of `handleClusterClick` computes componentwise
min/max folds of the coordinates from the initial values 100 and 0. -/
theorem clusterBounds_eq (pts : List TargetArea) :
    clusterBounds pts =
      ((pts.map (·.x)).foldl min 100, (pts.map (·.x)).foldl max 0,
       (pts.map (·.y)).foldl min 100, (pts.map (·.y)).foldl max 0) := by
  have hmin : ∀ a b : ℚ, (if b < a then b else a) = min a b := by
    intro a b
    rcases le_total a b with h | h
    · rw [if_neg (not_lt.mpr h), min_eq_left h]
    · rcases eq_or_lt_of_le h with heq | h'
      · simp [heq.symm]
      · rw [if_pos h', min_eq_right h]
  have hmax : ∀ a b : ℚ, (if a < b then b else a) = max a b := by
    intro a b
    rcases le_total a b with h | h
    · rcases eq_or_lt_of_le h with heq | h'
      · simp [heq]
      · rw [if_pos h', max_eq_right h]
    · rw [if_neg (not_lt.mpr h), max_eq_left h]
  have hquad : ∀ acc : ℚ × ℚ × ℚ × ℚ,
      pts.foldl (fun acc p =>
        (min acc.1 p.x, max acc.2.1 p.x, min acc.2.2.1 p.y, max acc.2.2.2 p.y)) acc
        = ((pts.map (·.x)).foldl min acc.1, (pts.map (·.x)).foldl max acc.2.1,
           (pts.map (·.y)).foldl min acc.2.2.1, (pts.map (·.y)).foldl max acc.2.2.2) := by
    induction pts with
    | nil => intro acc; rfl
    | cons p rest ih =>
      intro acc
      simp only [List.foldl_cons, List.map_cons]
      exact ih _
  have hfun : clusterBounds pts = pts.foldl (fun acc p =>
      (min acc.1 p.x, max acc.2.1 p.x, min acc.2.2.1 p.y, max acc.2.2.2 p.y))
      (100, 0, 100, 0) := by
    simp only [clusterBounds, hmin, hmax]
  rw [hfun, hquad (100, 0, 100, 0)]

/-- C7 counterexample: activating the two-member cluster {(10,10), (30,10)}
(bounding box x ∈ [10,30], y = 10, padded spans 30 and 10, `dim` 30) at
container aspect 3/2 yields the rectangle ⟨5, -5, 15, 10⟩.  Its centre
(12.5, 0) is not the bounding-box centroid (20, 10), and neither extent
equals the claimed size `max(span + 50% padding, 10) = 30`. -/
theorem zoomToCluster_not_centered :
    zoomToCluster (3 / 2) [v1, v2] = ⟨5, -5, 15, 10⟩ ∧
    (zoomToCluster (3 / 2) [v1, v2]).x + (zoomToCluster (3 / 2) [v1, v2]).w / 2 ≠
      (10 + 30) / 2 ∧
    (zoomToCluster (3 / 2) [v1, v2]).y + (zoomToCluster (3 / 2) [v1, v2]).h / 2 ≠
      (10 + 10) / 2 ∧
    (zoomToCluster (3 / 2) [v1, v2]).w ≠ 30 ∧
    (zoomToCluster (3 / 2) [v1, v2]).h ≠ 30 := by
  have h : zoomToCluster (3 / 2) [v1, v2] = ⟨5, -5, 15, 10⟩ := by
    norm_num [zoomToCluster, clusterBounds, v1, v2, max_def]
  refine ⟨h, ?_, ?_, ?_, ?_⟩ <;> rw [h] <;> norm_num

/-- C7 amended: for a nonempty member list inside the 0-100 square and a
positive container aspect, the fold of `handleClusterClick` computes the
true minimal bounding box of the members; the drill-down rectangle's origin
is the box centroid minus `dim/2` on each axis, where `dim` is the larger
padded span floored at 10; the extents are the aspect-adjusted pair (for a
wide container, height = the padded y-span floored at 10 and width =
height·aspect), so the rectangle's aspect ratio equals the container's and
both extents are at least 10 — but the rectangle is not in general centred
on that centroid, and its extents need not equal `dim`
(see `zoomToCluster_not_centered`). -/
theorem zoomToCluster_spec (aspect : ℚ) (pts : List TargetArea)
    (hne : pts ≠ [])
    (hbox : ∀ p ∈ pts, 0 ≤ p.x ∧ p.x ≤ 100 ∧ 0 ≤ p.y ∧ p.y ≤ 100)
    (ha : 0 < aspect) :
    (∀ p ∈ pts, (clusterBounds pts).1 ≤ p.x ∧ p.x ≤ (clusterBounds pts).2.1 ∧
      (clusterBounds pts).2.2.1 ≤ p.y ∧ p.y ≤ (clusterBounds pts).2.2.2) ∧
    (clusterBounds pts).1 ∈ pts.map (·.x) ∧
    (clusterBounds pts).2.1 ∈ pts.map (·.x) ∧
    (clusterBounds pts).2.2.1 ∈ pts.map (·.y) ∧
    (clusterBounds pts).2.2.2 ∈ pts.map (·.y) ∧
    (zoomToCluster aspect pts).x =
      ((clusterBounds pts).1 + (clusterBounds pts).2.1) / 2 - zoomDim pts / 2 ∧
    (zoomToCluster aspect pts).y =
      ((clusterBounds pts).2.2.1 + (clusterBounds pts).2.2.2) / 2 - zoomDim pts / 2 ∧
    (zoomToCluster aspect pts).w = aspect * (zoomToCluster aspect pts).h ∧
    10 ≤ (zoomToCluster aspect pts).w ∧
    10 ≤ (zoomToCluster aspect pts).h := by
  obtain ⟨p0, hp0⟩ := List.exists_mem_of_ne_nil pts hne
  have hx0 : p0.x ∈ pts.map (·.x) := List.mem_map_of_mem _ hp0
  have hy0 : p0.y ∈ pts.map (·.y) := List.mem_map_of_mem _ hp0
  have hb := clusterBounds_eq pts
  refine ⟨?_, ?_, ?_, ?_, ?_, rfl, rfl, ?_, ?_, ?_⟩
  · intro p hp
    rw [hb]
    exact ⟨foldl_min_le_mem _ _ _ (List.mem_map_of_mem _ hp),
      foldl_max_ge_mem _ _ _ (List.mem_map_of_mem _ hp),
      foldl_min_le_mem _ _ _ (List.mem_map_of_mem _ hp),
      foldl_max_ge_mem _ _ _ (List.mem_map_of_mem _ hp)⟩
  · rw [hb]
    rcases foldl_min_mem (pts.map (·.x)) 100 with h | h
    · have h1 := foldl_min_le_mem (pts.map (·.x)) 100 _ hx0
      have h2 := (hbox p0 hp0).2.1
      have h3 : p0.x = 100 := le_antisymm h2 (h ▸ h1)
      rw [h, ← h3]
      exact hx0
    · exact h
  · rw [hb]
    rcases foldl_max_mem (pts.map (·.x)) 0 with h | h
    · have h1 := foldl_max_ge_mem (pts.map (·.x)) 0 _ hx0
      have h2 := (hbox p0 hp0).1
      have h3 : p0.x = 0 := le_antisymm (h ▸ h1) h2
      rw [h, ← h3]
      exact hx0
    · exact h
  · rw [hb]
    rcases foldl_min_mem (pts.map (·.y)) 100 with h | h
    · have h1 := foldl_min_le_mem (pts.map (·.y)) 100 _ hy0
      have h2 := (hbox p0 hp0).2.2.2
      have h3 : p0.y = 100 := le_antisymm h2 (h ▸ h1)
      rw [h, ← h3]
      exact hy0
    · exact h
  · rw [hb]
    rcases foldl_max_mem (pts.map (·.y)) 0 with h | h
    · have h1 := foldl_max_ge_mem (pts.map (·.y)) 0 _ hy0
      have h2 := (hbox p0 hp0).2.2.1
      have h3 : p0.y = 0 := le_antisymm (h ▸ h1) h2
      rw [h, ← h3]
      exact hy0
    · exact h
  · have hratio : ∀ tW tH : ℚ,
        (if aspect > 1 then tH * aspect else tW)
          = aspect * (if aspect > 1 then tH else tW / aspect) := by
      intro tW tH
      by_cases hgt : aspect > 1
      · rw [if_pos hgt, if_pos hgt]
        ring
      · rw [if_neg hgt, if_neg hgt]
        field_simp
    simp only [zoomToCluster]
    exact hratio _ _
  · have hfloorW : ∀ tW tH : ℚ, 10 ≤ tW → 10 ≤ tH →
        10 ≤ (if aspect > 1 then tH * aspect else tW) := by
      intro tW tH hW hH
      by_cases hgt : aspect > 1
      · rw [if_pos hgt]
        nlinarith
      · rw [if_neg hgt]
        exact hW
    simp only [zoomToCluster]
    exact hfloorW _ _ (le_max_right _ _) (le_max_right _ _)
  · have hfloorH : ∀ tW tH : ℚ, 10 ≤ tW → 10 ≤ tH →
        10 ≤ (if aspect > 1 then tH else tW / aspect) := by
      intro tW tH hW hH
      by_cases hgt : aspect > 1
      · rw [if_pos hgt]
        exact hH
      · rw [if_neg hgt]
        have hle1 : aspect ≤ 1 := not_lt.mp hgt
        rw [le_div_iff₀ ha]
        nlinarith
    simp only [zoomToCluster]
    exact hfloorH _ _ (le_max_right _ _) (le_max_right _ _)

/-- Witness for the amended C7 at the concrete cluster members {v1, v2} and
container aspect 3/2. -/
theorem zoomToCluster_spec_witness :
    (∀ p ∈ [v1, v2], (clusterBounds [v1, v2]).1 ≤ p.x ∧
      p.x ≤ (clusterBounds [v1, v2]).2.1 ∧
      (clusterBounds [v1, v2]).2.2.1 ≤ p.y ∧
      p.y ≤ (clusterBounds [v1, v2]).2.2.2) ∧
    (clusterBounds [v1, v2]).1 ∈ [v1, v2].map (·.x) ∧
    (clusterBounds [v1, v2]).2.1 ∈ [v1, v2].map (·.x) ∧
    (clusterBounds [v1, v2]).2.2.1 ∈ [v1, v2].map (·.y) ∧
    (clusterBounds [v1, v2]).2.2.2 ∈ [v1, v2].map (·.y) ∧
    (zoomToCluster (3 / 2) [v1, v2]).x =
      ((clusterBounds [v1, v2]).1 + (clusterBounds [v1, v2]).2.1) / 2 -
        zoomDim [v1, v2] / 2 ∧
    (zoomToCluster (3 / 2) [v1, v2]).y =
      ((clusterBounds [v1, v2]).2.2.1 + (clusterBounds [v1, v2]).2.2.2) / 2 -
        zoomDim [v1, v2] / 2 ∧
    (zoomToCluster (3 / 2) [v1, v2]).w = (3 / 2) * (zoomToCluster (3 / 2) [v1, v2]).h ∧
    10 ≤ (zoomToCluster (3 / 2) [v1, v2]).w ∧
    10 ≤ (zoomToCluster (3 / 2) [v1, v2]).h :=
  zoomToCluster_spec (3 / 2) [v1, v2] (by simp) (by norm_num [v1, v2]) (by norm_num)

/-- C8 counterexample: with container height 0 (and width 600) the unguarded
division `width / height` evaluates to `+Infinity`, which propagates into the
base rectangle — the computed width is `+∞` and the origin x is `-∞` — with
no guard and no fallback to a finite base rectangle. -/
theorem getBaseViewBoxJs_zero_height :
    (getBaseViewBoxJs (.fin 600) (.fin 0)).w = .inf true ∧
    (getBaseViewBoxJs (.fin 600) (.fin 0)).x = .inf false ∧
    (getBaseViewBoxJs (.fin 600) (.fin 0)).w.isFinite = false := by
  refine ⟨?_, ?_, ?_⟩ <;> rfl

/-- C8 amended: the code contains no division guard — zero container height
produces infinities in the base rectangle (see
`getBaseViewBoxJs_zero_height`) — but for positive container dimensions
every divisor is nonzero: the IEEE evaluation stays finite, agrees
componentwise with the exact-rational `getBaseViewBox`, and the base
rectangle's extents are positive. -/
theorem getBaseViewBoxJs_pos_finite (width height : ℚ) (hw : 0 < width)
    (hh : 0 < height) :
    getBaseViewBoxJs (.fin width) (.fin height) =
      { x := .fin (getBaseViewBox width height).x,
        y := .fin (getBaseViewBox width height).y,
        w := .fin (getBaseViewBox width height).w,
        h := .fin (getBaseViewBox width height).h } ∧
    0 < (getBaseViewBox width height).w ∧
    0 < (getBaseViewBox width height).h := by
  have haspect : 0 < width / height := div_pos hw hh
  have hhne : height ≠ 0 := ne_of_gt hh
  have h1 : jdiv (.fin width) (.fin height) = .fin (width / height) := by
    simp [jdiv, hhne]
  by_cases hgt : 1 < width / height
  · have hga : jgt (.fin (width / height)) (.fin 1) = true := by
      simp [jgt, hgt]
    refine ⟨?_, ?_, ?_⟩
    · simp only [getBaseViewBoxJs, h1, hga, if_true]
      norm_num [jmul, jsub, jdiv, getBaseViewBox, hgt]
    · simp only [getBaseViewBox]
      rw [if_pos hgt]
      linarith
    · simp only [getBaseViewBox]
      rw [if_pos hgt]
      norm_num
  · have hga : jgt (.fin (width / height)) (.fin 1) = false := by
      simp [jgt, hgt]
    refine ⟨?_, ?_, ?_⟩
    · simp only [getBaseViewBoxJs, h1, hga, Bool.false_eq_true, if_false]
      norm_num [jmul, jsub, jdiv, getBaseViewBox, hgt, haspect.ne']
    · simp only [getBaseViewBox]
      rw [if_neg hgt]
      norm_num
    · simp only [getBaseViewBox]
      rw [if_neg hgt]
      positivity

/-- Witness for the amended C8 at the concrete container dimensions 600×400
used by the dashboard. -/
theorem getBaseViewBoxJs_pos_finite_witness :
    getBaseViewBoxJs (.fin 600) (.fin 400) =
      { x := .fin (getBaseViewBox 600 400).x,
        y := .fin (getBaseViewBox 600 400).y,
        w := .fin (getBaseViewBox 600 400).w,
        h := .fin (getBaseViewBox 600 400).h } ∧
    0 < (getBaseViewBox 600 400).w ∧
    0 < (getBaseViewBox 600 400).h :=
  getBaseViewBoxJs_pos_finite 600 400 (by norm_num) (by norm_num)

end GeoGenius
